import Mathlib

/-!
Verification development for the leaderboard competition backend
(`src/backend/models.py`).  Python floats are modelled as rationals `ℚ`
(every arithmetic operation the code performs on them — `+`, `-`, `*`,
`%`, `//`, comparison — is exact real arithmetic here; the constants
involved are all exactly representable), wall-clock instants
(`time.time()`) are passed as an explicit `now : ℚ` argument, database
state is an explicit list of rows, and the mutable private attributes of
`RoundsConfig` together with the global `random` module state form an
explicit `MachineState` threaded through every method.
-/

namespace Leaderboard

/-- Guess enumeration, `models.py` lines 37-45. -/
inductive Guess where
  | birds
  | chainsaw
  | fire
  | handsaw
  | helicopter
  | nothing
  | received
  | disqualified
deriving DecidableEq

/-- Declaration-order list of all `Guess` members, as Python's
`for guess in Guess` iterates them. -/
def Guess.allValues : List Guess :=
  [.birds, .chainsaw, .fire, .handsaw, .helicopter, .nothing, .received, .disqualified]

/-- `Guess.possible_values`, `models.py` lines 47-53: every member except
the meta-values `nothing`, `received`, `disqualified`. -/
def Guess.possible_values : List Guess :=
  Guess.allValues.filter
    (fun g => decide (g ∉ [Guess.nothing, Guess.received, Guess.disqualified]))

/-- `Answer` model, `models.py` lines 56-59. -/
structure Answer where
  guess : Guess
  correct : Bool := false
  hide : Bool := false
deriving DecidableEq

/-- `RoundConfig`, `models.py` lines 62-65. -/
structure RoundConfig where
  lap_count : Nat := 20
  lap_duration : ℚ := 13
  only_check_for_presence : Bool := false
deriving DecidableEq

instance : Inhabited RoundConfig := ⟨{}⟩

/-- Static (public, pydantic-validated) fields of `RoundsConfig`,
`models.py` lines 68-83. -/
structure RoundsConfig where
  rounds : List RoundConfig :=
    [{ only_check_for_presence := true }, {}, {}, {}, {}]
  seed : Nat := 1234
  start_paused : Bool := true
  restart_when_finished : Bool := false
  pause_between_rounds : Bool := true
  latency_margin : ℚ := 1
  delay_before_playing : ℚ := 2
  delay_after_playing : ℚ := 1
  sound_duration : ℚ := 5
deriving DecidableEq

/-- `GroupConfig`, `models.py` lines 31-34. -/
structure GroupConfig where
  key : String
  name : String
  admin : Bool := false
deriving DecidableEq

/-- One row of the `Submission` table, `models.py` lines 302-312.
The database is modelled as a `List Submission` in insertion order. -/
structure Submission where
  id : Nat
  timestamp : ℚ
  seed : Nat
  round : Nat
  lap : Nat
  key : String
  guess : Guess
  disqualified : Bool
deriving DecidableEq

/-- Python list subscription with a possibly negative index (`l[i]`,
negative indices count from the end).  Out-of-range accesses raise
`IndexError` in Python; here they return the default `d`, and every
theorem below that touches an index carries the bound that keeps the
access in range. -/
def pyIdx {α : Type} (l : List α) (i : Int) (d : α) : α :=
  if i < 0 then l.getD (l.length - (-i).toNat) d else l.getD i.toNat d

/-- Python's float modulo `x % y` (sign follows `y`; all uses in the
code have `y > 0`): `x - y * ⌊x / y⌋`. -/
def qmod (x y : ℚ) : ℚ := x - y * ⌊x / y⌋

/-!
Model of the global `random` module state.  `models.py` seeds the global
Mersenne-Twister generator in `RoundsConfig.__init__` (line 96) and
consumes it in `restart` through `random.choices` (line 123) and
`random.random` (line 136).  The generator is modelled as a deterministic
linear-congruential stream over `Nat`: the properties proved below depend
only on the facts that the stream is a pure function of the seed and that
`random()` returns a value in `[0, 1)`, both of which hold of the real
generator.
-/

/-- One step of the modelled generator state. -/
def randStep (s : Nat) : Nat := (s * 1103515245 + 12345) % 2 ^ 31

/-- Modelled `random.random()`: next state and a rational in `[0, 1)`. -/
def randFloat (s : Nat) : ℚ × Nat :=
  let s' := randStep s
  ((s' : ℚ) / 2 ^ 31, s')

/-- Modelled `random.seed(seed)`: the initial generator state is a pure
function of the seed. -/
def randSeed (seed : Nat) : Nat := seed % 2 ^ 31

/-- One unweighted draw of `random.choices`: CPython picks
`population[floor(random() * len(population))]`. -/
def randChoice (pop : List Guess) (s : Nat) : Guess × Nat :=
  let (r, s') := randFloat s
  (pop.getD (⌊r * pop.length⌋).toNat Guess.nothing, s')

/-- Modelled `random.choices(pop, k=k)`: `k` independent uniform draws
with replacement. -/
def randChoices (pop : List Guess) : Nat → Nat → List Guess × Nat
  | 0, s => ([], s)
  | k + 1, s =>
    let (g, s') := randChoice pop s
    let (gs, s'') := randChoices pop k s'
    (g :: gs, s'')

/-- Per-round answer generation, `models.py` lines 122-125: one list of
`lap_count` uniform draws from `Guess.possible_values` per round. -/
def genAnswers : List RoundConfig → Nat → List (List Guess) × Nat
  | [], s => ([], s)
  | rc :: rest, s =>
    let (gs, s') := randChoices Guess.possible_values rc.lap_count s
    let (rest', s'') := genAnswers rest s'
    (gs :: rest', s'')

/-- Play delays of one round, `models.py` line 136:
`start + random.random() * (lap_duration - total)` for each lap. -/
def genDelaysRound (start span : ℚ) : Nat → Nat → List ℚ × Nat
  | 0, s => ([], s)
  | k + 1, s =>
    let (r, s') := randFloat s
    let (ds, s'') := genDelaysRound start span k s'
    ((start + r * span) :: ds, s'')

/-- Per-round play-delay generation, `models.py` lines 134-140. -/
def genDelays (start total : ℚ) : List RoundConfig → Nat → List (List ℚ) × Nat
  | [], s => ([], s)
  | rc :: rest, s =>
    let (ds, s') := genDelaysRound start (rc.lap_duration - total) rc.lap_count s
    let (rest', s'') := genDelays start total rest s'
    (ds :: rest', s'')

/-- `total` as computed in `validate_timing` (lines 105-107) and in
`restart` (lines 126-131). -/
def total_overhead (cfg : RoundsConfig) : ℚ :=
  cfg.latency_margin + cfg.delay_before_playing + cfg.delay_after_playing +
    cfg.sound_duration

/-- Mutable runtime state: the private attributes of `RoundsConfig`
(lines 84-91; `__current_lap` is declared but never used), the global
`random` state, and the `Submission` table. -/
structure MachineState where
  answers : List (List Guess)
  play_delays : List (List ℚ)
  round_start_time : ℚ
  time_when_paused : ℚ
  paused : Bool
  current_round : Nat
  finished : Bool
  rng : Nat
  submissions : List Submission
deriving DecidableEq

/-- `RoundsConfig.time`, `models.py` lines 151-155. -/
def time (s : MachineState) (now : ℚ) : ℚ :=
  if s.paused then s.time_when_paused else now

/-- `RoundsConfig.play`, `models.py` lines 179-184. -/
def play (now : ℚ) (s : MachineState) : MachineState :=
  if s.paused then
    { s with round_start_time := s.round_start_time + (now - s.time_when_paused),
             paused := false }
  else s

/-- `RoundsConfig.pause`, `models.py` lines 186-191. -/
def pause (now : ℚ) (s : MachineState) : MachineState :=
  if s.paused then s
  else { s with time_when_paused := now, paused := true }

/-- `RoundsConfig.restart`, `models.py` lines 117-149: clear the
submission table, regenerate answers and play delays from the current
`random` state, reset the clock reference to `now`, start on round 0,
paused, not finished; then `play()` immediately unless `start_paused`. -/
def restart (cfg : RoundsConfig) (now : ℚ) (s : MachineState) : MachineState :=
  let (answers, rng₁) := genAnswers cfg.rounds s.rng
  let (delays, rng₂) :=
    genDelays cfg.delay_before_playing (total_overhead cfg) cfg.rounds rng₁
  let s₁ : MachineState :=
    { answers := answers
      play_delays := delays
      round_start_time := now
      time_when_paused := now
      paused := true
      current_round := 0
      finished := false
      rng := rng₂
      submissions := [] }
  if cfg.start_paused then s₁ else play now s₁

/-- Construction of a `RoundsConfig` instance followed by the `restart()`
issued at application start-up (`app.py` line 57): `__init__` reseeds the
global generator from `seed` (line 96), so the first schedule is a pure
function of the configuration. -/
def init_machine (cfg : RoundsConfig) (now : ℚ) : MachineState :=
  restart cfg now
    { answers := [], play_delays := [], round_start_time := now,
      time_when_paused := now, paused := true, current_round := 0,
      finished := false, rng := randSeed cfg.seed, submissions := [] }

/-- `RoundsConfig.get_current_lap`, `models.py` lines 196-220: derives the
lap from elapsed time and performs the round-boundary transitions
(advance round / finish+pause / restart) as a side effect. -/
def get_current_lap (cfg : RoundsConfig) (now : ℚ) (s : MachineState) :
    Int × MachineState :=
  let elapsed := time s now - s.round_start_time
  let rc := cfg.rounds.getD s.current_round default
  let current_lap : Int := ⌊elapsed / rc.lap_duration⌋
  if (rc.lap_count : Int) ≤ current_lap then
    if s.current_round + 1 = cfg.rounds.length then
      if cfg.restart_when_finished then
        (0, restart cfg now s)
      else
        ((rc.lap_count : Int) - 1, pause now { s with finished := true })
    else
      let s₁ := { s with current_round := s.current_round + 1,
                         round_start_time := now }
      (0, if cfg.pause_between_rounds then pause now s₁ else s₁)
  else
    (current_lap, s)

/-- `RoundsConfig.get_current_play_delay`, `models.py` lines 166-167.
Python evaluates `self.__play_delays` and `self.get_current_round()`
before the `self.get_current_lap()` call, so the list and the round index
are the pre-transition ones. -/
def get_current_play_delay (cfg : RoundsConfig) (now : ℚ) (s : MachineState) :
    ℚ × MachineState :=
  let delays := s.play_delays
  let r := s.current_round
  let (lap, s₁) := get_current_lap cfg now s
  (pyIdx (delays.getD r []) lap 0, s₁)

/-- `RoundsConfig.get_current_correct_guess`, `models.py` lines 222-223;
same evaluation order remark as for `get_current_play_delay`. -/
def get_current_correct_guess (cfg : RoundsConfig) (now : ℚ) (s : MachineState) :
    Guess × MachineState :=
  let answers := s.answers
  let r := s.current_round
  let (lap, s₁) := get_current_lap cfg now s
  (pyIdx (answers.getD r []) lap Guess.nothing, s₁)

/-- `RoundsConfig.is_paused`, `models.py` lines 234-235, as a state
transformer to make its frame property a statement rather than a type. -/
def is_paused (s : MachineState) : Bool × MachineState := (s.paused, s)

/-- `RoundsConfig.is_finished`, `models.py` lines 256-257. -/
def is_finished (s : MachineState) : Bool × MachineState := (s.finished, s)

/-- `RoundsConfig.time_before_next_lap`, `models.py` lines 237-244. -/
def time_before_next_lap (cfg : RoundsConfig) (now : ℚ) (s : MachineState) :
    ℚ × MachineState :=
  if s.finished then (0, s)
  else
    let elapsed := time s now - s.round_start_time
    let lap_duration := (cfg.rounds.getD s.current_round default).lap_duration
    (lap_duration - qmod elapsed lap_duration, s)

/-- `RoundsConfig.time_before_playing`, `models.py` lines 246-254;
`elapsed` is computed before the (possibly state-mutating)
`get_current_play_delay()` call. -/
def time_before_playing (cfg : RoundsConfig) (now : ℚ) (s : MachineState) :
    ℚ × MachineState :=
  if s.finished then (-1, s)
  else
    let elapsed := time s now - s.round_start_time
    let lap_duration := (cfg.rounds.getD s.current_round default).lap_duration
    let (play_delay, s₁) := get_current_play_delay cfg now s
    (play_delay - qmod elapsed lap_duration, s₁)

/-- Row predicate of the `filter_by(key=key, round=round, lap=lap)`
queries of `models.py` lines 325 and 342. -/
def slotPred (key : String) (round lap : Nat) (s : Submission) : Bool :=
  s.key == key && s.round == round && s.lap == lap

/-- Insertion step of `ORDER BY timestamp DESC`. -/
def insertByTsDesc (s : Submission) : List Submission → List Submission
  | [] => [s]
  | t :: rest =>
    if t.timestamp ≤ s.timestamp then s :: t :: rest
    else t :: insertByTsDesc s rest

/-- `ORDER BY timestamp DESC` modelled as an insertion sort into
non-increasing timestamp order (rows with equal timestamps may appear in
any order, as in SQL). -/
def sortByTsDesc : List Submission → List Submission
  | [] => []
  | s :: rest => insertByTsDesc s (sortByTsDesc rest)

/-- `Submission.get_submissions`, `models.py` lines 314-333: the guesses
of the `(key, round, lap)` slot ordered newest first, or `[nothing]` when
the slot is empty. -/
def get_submissions (db : List Submission) (key : String) (round lap : Nat) :
    List Guess :=
  let guesses := (sortByTsDesc (db.filter (slotPred key round lap))).map
    (fun s => s.guess)
  if guesses.isEmpty then [Guess.nothing] else guesses

/-- `Submission.is_disqualified`, `models.py` lines 335-349: true iff some
row of the slot carries the flag. -/
def is_disqualified (db : List Submission) (key : String) (round lap : Nat) :
    Bool :=
  (db.filter (slotPred key round lap)).any (fun s => s.disqualified)

/-- Body of the per-lap scoring loop of `Config.get_leaderboard_status`,
`models.py` lines 423-450: the produced `Answer` and the lap's score
contribution.  `guess` is `get_submissions(...)[-1]`, the oldest
submission (line 425-427). -/
def scoreLap (db : List Submission) (key : String) (round : Nat)
    (presence : Bool) (correct_answer : Guess) (lap : Nat)
    (current_lap : Int) : Answer × ℚ :=
  let guess := pyIdx (get_submissions db key round lap) (-1) Guess.nothing
  let hide := decide ((lap : Int) > current_lap)
  if is_disqualified db key round lap then
    ({ guess := Guess.disqualified, correct := false, hide := hide }, -(1 / 2))
  else if presence then
    if guess ≠ Guess.nothing then
      ({ guess := Guess.received, correct := true, hide := hide }, 1)
    else
      ({ guess := guess, correct := false, hide := hide }, 0)
  else
    let correct := guess == correct_answer
    ({ guess := guess, correct := correct, hide := hide },
      if correct then 1 else 0)

/-- The `for lap, correct_answer in enumerate(correct_answers)` loop of
`models.py` lines 423-450, with the running lap index made explicit:
collects the per-lap `Answer`s and sums the score contributions (Python
accumulates the same rational sum left to right). -/
def scoreLaps (db : List Submission) (key : String) (round : Nat)
    (presence : Bool) (current_lap : Int) : Nat → List Guess → List Answer × ℚ
  | _, [] => ([], 0)
  | lap, ca :: rest =>
    let (a, c) := scoreLap db key round presence ca lap current_lap
    let (more, sc) := scoreLaps db key round presence current_lap (lap + 1) rest
    (a :: more, c + sc)

/-- One group's answers and cumulative score for the current round. -/
def scoreRound (db : List Submission) (key : String) (round : Nat)
    (presence : Bool) (cas : List Guess) (current_lap : Int) :
    List Answer × ℚ :=
  scoreLaps db key round presence current_lap 0 cas

/-- `LeaderboardRow`, `models.py` lines 260-263. -/
structure LeaderboardRow where
  name : String
  answers : List Answer
  score : ℚ
deriving DecidableEq

/-- One iteration of the per-group loop of `models.py` lines 420-454. -/
def scoreRow (db : List Submission) (round : Nat) (presence : Bool)
    (cas : List Guess) (current_lap : Int) (g : GroupConfig) :
    LeaderboardRow :=
  let (answers, score) := scoreRound db g.key round presence cas current_lap
  { name := g.name, answers := answers, score := score }

/-- `LeaderboardStatus`, `models.py` lines 266-276. -/
structure LeaderboardStatus where
  current_correct_guess : Guess
  current_round : Nat
  current_lap : Int
  number_of_rounds : Nat
  number_of_laps : Nat
  paused : Bool
  time_before_next_lap : ℚ
  time_before_playing : ℚ
  finished : Bool
  leaderboard : List LeaderboardRow
deriving DecidableEq

/-- `Config.get_leaderboard_status`, `models.py` lines 405-467, with the
reads performed in source order (several of them may mutate the machine
through `get_current_lap`); the per-lap loop reads
`get_current_round_config().only_check_for_presence` from the settled
state. -/
def get_leaderboard_status (groups : List GroupConfig) (cfg : RoundsConfig)
    (now : ℚ) (s : MachineState) : LeaderboardStatus × MachineState :=
  let (ccg, s₁) := get_current_correct_guess cfg now s
  let current_round := s₁.current_round
  let (current_lap, s₂) := get_current_lap cfg now s₁
  let number_of_rounds := cfg.rounds.length
  let number_of_laps := (cfg.rounds.getD s₂.current_round default).lap_count
  let pausedNow := s₂.paused
  let (tbnl, s₃) := time_before_next_lap cfg now s₂
  let (tbp, s₄) := time_before_playing cfg now s₃
  let finishedNow := s₄.finished
  let correct_answers := s₄.answers.getD s₄.current_round []
  let presence := (cfg.rounds.getD s₄.current_round default).only_check_for_presence
  let rows := groups.map
    (scoreRow s₄.submissions current_round presence correct_answers current_lap)
  ({ current_correct_guess := ccg
     current_round := current_round
     current_lap := current_lap
     number_of_rounds := number_of_rounds
     number_of_laps := number_of_laps
     paused := pausedNow
     time_before_next_lap := tbnl
     time_before_playing := tbp
     finished := finishedNow
     leaderboard := rows }, s₄)

/-- `RoundsConfig.validate_timing`, `models.py` lines 98-115: every
round's lap duration must be at least the total overhead (the source
raises `AssertionError` on the first violation; success is equivalent). -/
def validate_timing (cfg : RoundsConfig) : Bool :=
  cfg.rounds.all (fun rc => total_overhead cfg ≤ rc.lap_duration)

/-- Loop of `Config.unique_names_and_keys`, `models.py` lines 364-381:
walk the group list keeping the sets of seen keys and names, failing on
the first duplicate. -/
def uniqueLoop : List GroupConfig → List String → List String → Bool
  | [], _, _ => true
  | g :: rest, keys, names =>
    if g.key ∈ keys then false
    else if g.name ∈ names then false
    else uniqueLoop rest (g.key :: keys) (g.name :: names)

/-- `Config.unique_names_and_keys`, `models.py` lines 364-381. -/
def unique_names_and_keys (groups : List GroupConfig) : Bool :=
  uniqueLoop groups [] []

/-- The validated `Config` model, `models.py` lines 357-381. -/
structure Config where
  group_configs : List GroupConfig
  rounds_config : RoundsConfig
deriving DecidableEq

/-- Pydantic construction of `Config`: runs both validators and fails
(raises) iff one of them rejects; validation happens here, at
construction time, and is never re-run while the competition runs. -/
def Config.construct (groups : List GroupConfig) (cfg : RoundsConfig) :
    Option Config :=
  if validate_timing cfg && unique_names_and_keys groups then
    some { group_configs := groups, rounds_config := cfg }
  else none

/-- Pause/resume call sequences on the clock, for the stopwatch law. -/
inductive ClockEvent where
  | pauseAt (t : ℚ)
  | playAt (t : ℚ)
deriving DecidableEq

/-- Apply one `pause()`/`play()` call at its instant. -/
def stepClock (s : MachineState) : ClockEvent → MachineState
  | .pauseAt t => pause t s
  | .playAt t => play t s

/-- Apply a sequence of `pause()`/`play()` calls. -/
def runClock (s : MachineState) (evs : List ClockEvent) : MachineState :=
  evs.foldl stepClock s

/-- Total paused duration accumulated by a call sequence up to `now`:
each pause interval closed by a `play()` contributes its length, and a
pause still open at `now` contributes `now - time_when_paused`. -/
def pausedDuration (s : MachineState) (evs : List ClockEvent) (now : ℚ) : ℚ :=
  match evs with
  | [] => if s.paused then now - s.time_when_paused else 0
  | e :: rest =>
    (match e with
     | .playAt t => if s.paused then t - s.time_when_paused else 0
     | .pauseAt _ => 0) + pausedDuration (stepClock s e) rest now

/-- Index-aware enumeration, mirroring Python's `enumerate` with a start
index; used to state the score-decomposition lemmas. -/
def enumFrom {α : Type} : Nat → List α → List (Nat × α)
  | _, [] => []
  | i, a :: rest => (i, a) :: enumFrom (i + 1) rest

/-! Projection lemmas: `play` and `pause` only touch the clock fields. -/

theorem play_answers (now : ℚ) (s : MachineState) :
    (play now s).answers = s.answers := by
  cases h : s.paused <;> simp [play, h]

theorem play_play_delays (now : ℚ) (s : MachineState) :
    (play now s).play_delays = s.play_delays := by
  cases h : s.paused <;> simp [play, h]

theorem play_current_round (now : ℚ) (s : MachineState) :
    (play now s).current_round = s.current_round := by
  cases h : s.paused <;> simp [play, h]

theorem play_finished (now : ℚ) (s : MachineState) :
    (play now s).finished = s.finished := by
  cases h : s.paused <;> simp [play, h]

theorem play_rng (now : ℚ) (s : MachineState) :
    (play now s).rng = s.rng := by
  cases h : s.paused <;> simp [play, h]

theorem play_submissions (now : ℚ) (s : MachineState) :
    (play now s).submissions = s.submissions := by
  cases h : s.paused <;> simp [play, h]

theorem restart_answers (cfg : RoundsConfig) (now : ℚ) (s : MachineState) :
    (restart cfg now s).answers = (genAnswers cfg.rounds s.rng).1 := by
  cases h : cfg.start_paused <;> simp [restart, h, play_answers]

theorem restart_play_delays (cfg : RoundsConfig) (now : ℚ) (s : MachineState) :
    (restart cfg now s).play_delays
      = (genDelays cfg.delay_before_playing (total_overhead cfg) cfg.rounds
          (genAnswers cfg.rounds s.rng).2).1 := by
  cases h : cfg.start_paused <;> simp [restart, h, play_play_delays]

theorem restart_current_round (cfg : RoundsConfig) (now : ℚ) (s : MachineState) :
    (restart cfg now s).current_round = 0 := by
  cases h : cfg.start_paused <;> simp [restart, h, play_current_round]

theorem restart_finished (cfg : RoundsConfig) (now : ℚ) (s : MachineState) :
    (restart cfg now s).finished = false := by
  cases h : cfg.start_paused <;> simp [restart, h, play_finished]

theorem restart_rng (cfg : RoundsConfig) (now : ℚ) (s : MachineState) :
    (restart cfg now s).rng
      = (genDelays cfg.delay_before_playing (total_overhead cfg) cfg.rounds
          (genAnswers cfg.rounds s.rng).2).2 := by
  cases h : cfg.start_paused <;> simp [restart, h, play_rng]

theorem restart_submissions (cfg : RoundsConfig) (now : ℚ) (s : MachineState) :
    (restart cfg now s).submissions = [] := by
  cases h : cfg.start_paused <;> simp [restart, h, play_submissions]

/-- Stopwatch invariant: after any sequence of `pause()`/`play()` calls,
the active elapsed time `time() - round_start_time` equals the wall-clock
span from the original reference minus the total paused duration. -/
theorem runClock_elapsed (evs : List ClockEvent) (s : MachineState) (now : ℚ) :
    time (runClock s evs) now - (runClock s evs).round_start_time
      = (now - s.round_start_time) - pausedDuration s evs now := by
  induction evs generalizing s with
  | nil =>
    cases h : s.paused <;> simp [runClock, pausedDuration, time, h]
  | cons e rest ih =>
    have h1 : runClock s (e :: rest) = runClock (stepClock s e) rest := rfl
    rw [h1, ih]
    cases e with
    | pauseAt t =>
      cases h : s.paused <;> simp [pausedDuration, stepClock, pause, h]
    | playAt t =>
      cases h : s.paused
      · simp [pausedDuration, stepClock, play, h]
      · simp [pausedDuration, stepClock, play, h]
        ring

/-- C4: the clock is a pausable stopwatch.  `pause()` on a paused clock
and `play()` on a running clock are no-ops (after one `pause` the clock is
paused, so a second `pause` at any instant is the identity, and dually for
`play`); `play()` shifts the start reference forward by exactly the pause
duration `t' - time_when_paused`; and over any call sequence the active
elapsed time `time() - round_start_time` equals wall-clock time minus the
total paused duration. -/
theorem clock_pausable_stopwatch (s : MachineState) (t t' now : ℚ)
    (evs : List ClockEvent) :
    pause t' (pause t s) = pause t s ∧
    play t' (play t s) = play t s ∧
    (play t' (pause t s)).round_start_time
      = s.round_start_time + (t' - (pause t s).time_when_paused) ∧
    time (runClock s evs) now - (runClock s evs).round_start_time
      = (now - s.round_start_time) - pausedDuration s evs now := by
  refine ⟨?_, ?_, ?_, runClock_elapsed evs s now⟩
  · cases h : s.paused <;> simp [pause, h]
  · cases h : s.paused <;> simp [play, h]
  · cases h : s.paused <;> simp [pause, play, h]

/-- C1: the generated schedule is a deterministic function of the
configuration and the pseudo-random state: two constructions with the same
spec and seed yield element-wise identical answer and play-offset lists
(whatever the construction instants), and any two `restart()` regenerations
from equal generator states — as after identical call histories — produce
identical schedules and leave the generator in identical states. -/
theorem schedule_generation_deterministic (cfg : RoundsConfig)
    (now now' : ℚ) (s s' : MachineState) (h : s.rng = s'.rng) :
    (init_machine cfg now).answers = (init_machine cfg now').answers ∧
    (init_machine cfg now).play_delays = (init_machine cfg now').play_delays ∧
    (restart cfg now s).answers = (restart cfg now' s').answers ∧
    (restart cfg now s).play_delays = (restart cfg now' s').play_delays ∧
    (restart cfg now s).rng = (restart cfg now' s').rng := by
  refine ⟨?_, ?_, ?_, ?_, ?_⟩ <;>
    simp [init_machine, restart_answers, restart_play_delays, restart_rng, h]

/-- Concrete round used by the witnesses below. -/
def wRound : RoundConfig :=
  { lap_count := 2, lap_duration := 10, only_check_for_presence := false }

/-- Concrete two-round configuration used by the witnesses below
(overhead `1 + 2 + 1 + 5 = 9 ≤ 10`). -/
def wCfg : RoundsConfig :=
  { rounds := [wRound, wRound], seed := 7, start_paused := false,
    restart_when_finished := false, pause_between_rounds := true,
    latency_margin := 1, delay_before_playing := 2, delay_after_playing := 1,
    sound_duration := 5 }

/-- Concrete machine: `wCfg` constructed and auto-started at instant 0. -/
def wState : MachineState := init_machine wCfg 0

theorem schedule_generation_deterministic_witness :
    wState.rng = wState.rng ∧
    (restart wCfg 3 wState).answers = (restart wCfg 11 wState).answers := by
  exact ⟨rfl, (schedule_generation_deterministic wCfg 3 11 wState wState rfl).2.2.1⟩

/-! Range and length facts about the generated schedule. -/

theorem randFloat_nonneg (s : Nat) : 0 ≤ (randFloat s).1 := by
  simp only [randFloat]
  positivity

theorem randFloat_lt_one (s : Nat) : (randFloat s).1 < 1 := by
  simp only [randFloat]
  rw [div_lt_one (by positivity)]
  have h : randStep s < 2 ^ 31 := Nat.mod_lt _ (by norm_num)
  exact_mod_cast h

theorem randChoices_length (pop : List Guess) (k s : Nat) :
    ((randChoices pop k s).1).length = k := by
  induction k generalizing s with
  | zero => simp [randChoices]
  | succ k ih => simp [randChoices, ih]

theorem genDelaysRound_length (start span : ℚ) (k s : Nat) :
    ((genDelaysRound start span k s).1).length = k := by
  induction k generalizing s with
  | zero => simp [genDelaysRound]
  | succ k ih => simp [genDelaysRound, ih]

theorem genDelaysRound_mem (start span : ℚ) (k s : Nat) (hspan : 0 ≤ span) :
    ∀ d ∈ (genDelaysRound start span k s).1, start ≤ d ∧ d ≤ start + span := by
  induction k generalizing s with
  | zero => simp [genDelaysRound]
  | succ k ih =>
    simp only [genDelaysRound, List.mem_cons]
    rintro d (rfl | hd)
    · constructor
      · have := mul_nonneg (randFloat_nonneg (s := s)) hspan
        linarith
      · have := mul_le_of_le_one_left hspan (le_of_lt (randFloat_lt_one (s := s)))
        linarith
    · exact ih _ d hd

theorem genAnswers_length (rcs : List RoundConfig) (s : Nat) :
    ((genAnswers rcs s).1).length = rcs.length := by
  induction rcs generalizing s with
  | nil => simp [genAnswers]
  | cons rc rest ih => simp [genAnswers, ih]

theorem genAnswers_getD_length (rcs : List RoundConfig) (s i : Nat)
    (h : i < rcs.length) :
    (((genAnswers rcs s).1).getD i []).length = (rcs.getD i default).lap_count := by
  induction rcs generalizing s i with
  | nil => simp at h
  | cons rc rest ih =>
    cases i with
    | zero => simp [genAnswers, randChoices_length]
    | succ i =>
      simp only [genAnswers, List.getD_cons_succ]
      exact ih _ _ (by simpa using h)

theorem genDelays_getD_length (start total : ℚ) (rcs : List RoundConfig)
    (s i : Nat) (h : i < rcs.length) :
    (((genDelays start total rcs s).1).getD i []).length
      = (rcs.getD i default).lap_count := by
  induction rcs generalizing s i with
  | nil => simp at h
  | cons rc rest ih =>
    cases i with
    | zero => simp [genDelays, genDelaysRound_length]
    | succ i =>
      simp only [genDelays, List.getD_cons_succ]
      exact ih _ _ (by simpa using h)

theorem genDelays_getD_mem (start total : ℚ) (rcs : List RoundConfig)
    (s i : Nat) (h : i < rcs.length)
    (hspan : total ≤ (rcs.getD i default).lap_duration) :
    ∀ d ∈ ((genDelays start total rcs s).1).getD i [],
      start ≤ d ∧ d ≤ start + ((rcs.getD i default).lap_duration - total) := by
  induction rcs generalizing s i with
  | nil => simp at h
  | cons rc rest ih =>
    cases i with
    | zero =>
      simp only [genDelays, List.getD_cons_zero] at hspan ⊢
      exact genDelaysRound_mem _ _ _ _ (by linarith)
    | succ i =>
      simp only [genDelays, List.getD_cons_succ] at hspan ⊢
      exact ih _ _ (by simpa using h) hspan

theorem validate_timing_iff (cfg : RoundsConfig) :
    validate_timing cfg = true ↔
      ∀ rc ∈ cfg.rounds, total_overhead cfg ≤ rc.lap_duration := by
  simp [validate_timing]

/-- C7: under the construction-time timing invariant, every generated
play-offset lies in
`[delay_before_playing, lap_duration - margin - post-delay - cue]`
(the code draws `pre + random() * (lap_duration - total_overhead)` with
`random() ∈ [0,1)`), and both per-round generated lists have exactly
`lap_count` entries.  Uniformity is a property of the modelled
pseudo-random source; the provable content is the range. -/
theorem play_offsets_in_range (cfg : RoundsConfig) (now : ℚ) (s : MachineState)
    (hv : validate_timing cfg = true) (i : Nat) (hi : i < cfg.rounds.length) :
    ((restart cfg now s).answers.getD i []).length
        = (cfg.rounds.getD i default).lap_count ∧
    ((restart cfg now s).play_delays.getD i []).length
        = (cfg.rounds.getD i default).lap_count ∧
    ∀ d ∈ (restart cfg now s).play_delays.getD i [],
      cfg.delay_before_playing ≤ d ∧
      d ≤ (cfg.rounds.getD i default).lap_duration - cfg.latency_margin -
          cfg.delay_after_playing - cfg.sound_duration := by
  have hrc : cfg.rounds.getD i default ∈ cfg.rounds := by
    rw [List.getD_eq_getElem _ _ hi]
    exact List.getElem_mem _
  have hsp : total_overhead cfg ≤ (cfg.rounds.getD i default).lap_duration :=
    (validate_timing_iff cfg).mp hv _ hrc
  refine ⟨?_, ?_, ?_⟩
  · rw [restart_answers]
    exact genAnswers_getD_length _ _ _ hi
  · rw [restart_play_delays]
    exact genDelays_getD_length _ _ _ _ _ hi
  · rw [restart_play_delays]
    intro d hd
    have hmem := genDelays_getD_mem cfg.delay_before_playing (total_overhead cfg)
      cfg.rounds _ i hi hsp d hd
    refine ⟨hmem.1, ?_⟩
    have h2 := hmem.2
    simp only [total_overhead] at h2
    linarith

theorem play_offsets_in_range_witness :
    validate_timing wCfg = true ∧ 0 < wCfg.rounds.length ∧
    ((restart wCfg 0 wState).play_delays.getD 0 []).length = 2 := by
  have hv : validate_timing wCfg = true := by
    norm_num [validate_timing, wCfg, wRound, total_overhead]
  refine ⟨hv, by norm_num [wCfg], ?_⟩
  have h := (play_offsets_in_range wCfg 0 wState hv 0
    (by norm_num [wCfg])).2.1
  simpa [wCfg, wRound] using h

/-! Validation of `Config` construction. -/

theorem uniqueLoop_iff (gs : List GroupConfig) (keys names : List String) :
    uniqueLoop gs keys names = true ↔
      ((gs.map GroupConfig.key).Nodup ∧ (gs.map GroupConfig.name).Nodup ∧
       (∀ g ∈ gs, g.key ∉ keys) ∧ (∀ g ∈ gs, g.name ∉ names)) := by
  induction gs generalizing keys names with
  | nil => simp [uniqueLoop]
  | cons g rest ih =>
    simp only [uniqueLoop]
    by_cases hk : g.key ∈ keys
    · simp only [if_pos hk]
      constructor
      · intro h
        exact absurd h (by simp)
      · rintro ⟨-, -, h3, -⟩
        exact absurd hk (h3 g (List.mem_cons_self g rest))
    · by_cases hn : g.name ∈ names
      · simp only [if_neg hk, if_pos hn]
        constructor
        · intro h
          exact absurd h (by simp)
        · rintro ⟨-, -, -, h4⟩
          exact absurd hn (h4 g (List.mem_cons_self g rest))
      · simp only [if_neg hk, if_neg hn, ih, List.map_cons, List.nodup_cons,
          List.mem_map, List.mem_cons]
        constructor
        · rintro ⟨hkn, hnn, h3, h4⟩
          refine ⟨⟨?_, hkn⟩, ⟨?_, hnn⟩, ?_, ?_⟩
          · rintro ⟨g', hg', hkey⟩
            exact h3 g' hg' (Or.inl hkey)
          · rintro ⟨g', hg', hname⟩
            exact h4 g' hg' (Or.inl hname)
          · rintro g' (rfl | hg')
            · exact hk
            · intro hmem
              exact h3 g' hg' (Or.inr hmem)
          · rintro g' (rfl | hg')
            · exact hn
            · intro hmem
              exact h4 g' hg' (Or.inr hmem)
        · rintro ⟨⟨hkdup, hkn⟩, ⟨hndup, hnn⟩, h3, h4⟩
          refine ⟨hkn, hnn, ?_, ?_⟩
          · intro g' hg'
            rintro (heq | hmem)
            · exact hkdup ⟨g', hg', heq⟩
            · exact h3 g' (Or.inr hg') hmem
          · intro g' hg'
            rintro (heq | hmem)
            · exact hndup ⟨g', hg', heq⟩
            · exact h4 g' (Or.inr hg') hmem

theorem unique_names_and_keys_iff (gs : List GroupConfig) :
    unique_names_and_keys gs = true ↔
      ((gs.map GroupConfig.key).Nodup ∧ (gs.map GroupConfig.name).Nodup) := by
  rw [unique_names_and_keys, uniqueLoop_iff]
  simp

/-- C8: constructing the validated configuration fails exactly when some
round's lap duration is strictly below the total overhead, or two groups
share a key, or two groups share a name.  Both validators run inside
`Config.construct` — i.e. at construction time, before any round starts —
and are never re-invoked at runtime (no runtime operation below calls
them). -/
theorem construction_validation_iff (groups : List GroupConfig)
    (cfg : RoundsConfig) :
    Config.construct groups cfg = none ↔
      ((∃ rc ∈ cfg.rounds, rc.lap_duration < total_overhead cfg) ∨
       ¬ (groups.map GroupConfig.key).Nodup ∨
       ¬ (groups.map GroupConfig.name).Nodup) := by
  have hconstr : Config.construct groups cfg = none ↔
      ¬ (validate_timing cfg = true ∧ unique_names_and_keys groups = true) := by
    simp only [Config.construct]
    split
    · rename_i h
      simp only [Bool.and_eq_true] at h
      simp [h]
    · rename_i h
      simp only [Bool.and_eq_true] at h
      simp [h]
  rw [hconstr, validate_timing_iff, unique_names_and_keys_iff]
  constructor
  · intro h
    by_cases h1 : ∀ rc ∈ cfg.rounds, total_overhead cfg ≤ rc.lap_duration
    · by_cases h2 : (groups.map GroupConfig.key).Nodup
      · by_cases h3 : (groups.map GroupConfig.name).Nodup
        · exact absurd ⟨h1, h2, h3⟩ h
        · exact Or.inr (Or.inr h3)
      · exact Or.inr (Or.inl h2)
    · push_neg at h1
      obtain ⟨rc, hrc, hlt⟩ := h1
      exact Or.inl ⟨rc, hrc, hlt⟩
  · rintro (⟨rc, hrc, hlt⟩ | h | h) ⟨h1, h2, h3⟩
    · exact absurd (h1 rc hrc) (not_le.mpr hlt)
    · exact h h2
    · exact h h3

/-! Branch characterizations of `get_current_lap`. -/

/-- When the derived lap index is still within the current round, the
position query is pure: it returns the floor of `elapsed / lap_duration`
and leaves the state untouched. -/
theorem get_current_lap_within (cfg : RoundsConfig) (now : ℚ) (s : MachineState)
    (h : ⌊(time s now - s.round_start_time) /
          (cfg.rounds.getD s.current_round default).lap_duration⌋
        < ((cfg.rounds.getD s.current_round default).lap_count : Int)) :
    get_current_lap cfg now s
      = (⌊(time s now - s.round_start_time) /
          (cfg.rounds.getD s.current_round default).lap_duration⌋, s) := by
  simp only [get_current_lap]
  rw [if_neg (not_le.mpr h)]

/-- Crossing the boundary of the last round with `restart_when_finished`
unset: report the final lap index, mark finished, pause. -/
theorem get_current_lap_finish (cfg : RoundsConfig) (now : ℚ) (s : MachineState)
    (hlast : s.current_round + 1 = cfg.rounds.length)
    (hrw : cfg.restart_when_finished = false)
    (h : ((cfg.rounds.getD s.current_round default).lap_count : Int)
        ≤ ⌊(time s now - s.round_start_time) /
            (cfg.rounds.getD s.current_round default).lap_duration⌋) :
    get_current_lap cfg now s
      = (((cfg.rounds.getD s.current_round default).lap_count : Int) - 1,
         pause now { s with finished := true }) := by
  simp only [get_current_lap]
  rw [if_pos h, if_pos hlast, hrw]
  simp

/-- Crossing the boundary of the last round with `restart_when_finished`
set: the machine silently restarts and lap 0 is reported. -/
theorem get_current_lap_restarts (cfg : RoundsConfig) (now : ℚ) (s : MachineState)
    (hlast : s.current_round + 1 = cfg.rounds.length)
    (hrw : cfg.restart_when_finished = true)
    (h : ((cfg.rounds.getD s.current_round default).lap_count : Int)
        ≤ ⌊(time s now - s.round_start_time) /
            (cfg.rounds.getD s.current_round default).lap_duration⌋) :
    get_current_lap cfg now s = (0, restart cfg now s) := by
  simp only [get_current_lap]
  rw [if_pos h, if_pos hlast, hrw]
  simp

/-- Crossing a boundary of a non-final round: advance the round, reset the
start reference to `now`, optionally pause. -/
theorem get_current_lap_advances (cfg : RoundsConfig) (now : ℚ) (s : MachineState)
    (hnl : s.current_round + 1 ≠ cfg.rounds.length)
    (h : ((cfg.rounds.getD s.current_round default).lap_count : Int)
        ≤ ⌊(time s now - s.round_start_time) /
            (cfg.rounds.getD s.current_round default).lap_duration⌋) :
    get_current_lap cfg now s
      = (0,
         if cfg.pause_between_rounds then
           pause now { s with current_round := s.current_round + 1,
                              round_start_time := now }
         else
           { s with current_round := s.current_round + 1,
                    round_start_time := now }) := by
  simp only [get_current_lap]
  rw [if_pos h, if_neg hnl]

/-- C6: a non-final round with `N` laps of duration `D`, running unpaused,
queried exactly `N * D` seconds after the round's start reference: the
reported lap is 0, the round index has advanced by exactly one, the start
reference is reset to `now`, and the machine is paused exactly when
`pause_between_rounds` is set. -/
theorem lap_rollover_advances_round (cfg : RoundsConfig) (s : MachineState)
    (now : ℚ)
    (hD : 0 < (cfg.rounds.getD s.current_round default).lap_duration)
    (hp : s.paused = false)
    (hr : s.current_round + 1 < cfg.rounds.length)
    (hnow : now = s.round_start_time +
      ((cfg.rounds.getD s.current_round default).lap_count : ℚ) *
        (cfg.rounds.getD s.current_round default).lap_duration) :
    (get_current_lap cfg now s).1 = 0 ∧
    (get_current_lap cfg now s).2.current_round = s.current_round + 1 ∧
    (get_current_lap cfg now s).2.round_start_time = now ∧
    (get_current_lap cfg now s).2.paused = cfg.pause_between_rounds := by
  have htime : time s now = now := by simp [time, hp]
  have hfloor : ⌊(time s now - s.round_start_time) /
      (cfg.rounds.getD s.current_round default).lap_duration⌋
      = ((cfg.rounds.getD s.current_round default).lap_count : Int) := by
    rw [htime, hnow]
    have harith : s.round_start_time +
        ((cfg.rounds.getD s.current_round default).lap_count : ℚ) *
          (cfg.rounds.getD s.current_round default).lap_duration -
        s.round_start_time
        = ((cfg.rounds.getD s.current_round default).lap_count : ℚ) *
          (cfg.rounds.getD s.current_round default).lap_duration := by ring
    rw [harith, mul_div_assoc, div_self (ne_of_gt hD), mul_one]
    exact Int.floor_natCast _
  have hbranch := get_current_lap_advances cfg now s (Nat.ne_of_lt hr)
    (le_of_eq hfloor.symm)
  rw [hbranch]
  cases hpb : cfg.pause_between_rounds <;> simp [pause, hp]

/-- Concrete mid-competition machine on round 0 of `wCfg`, running,
with the reference start at 0. -/
def wMach : MachineState :=
  { answers := [[.birds, .fire], [.chainsaw, .helicopter]]
    play_delays := [[2, 3], [4, 5]]
    round_start_time := 0
    time_when_paused := 0
    paused := false
    current_round := 0
    finished := false
    rng := 1
    submissions := [] }

theorem lap_rollover_advances_round_witness :
    ((0 : ℚ) < (wCfg.rounds.getD wMach.current_round default).lap_duration ∧
     wMach.paused = false ∧
     wMach.current_round + 1 < wCfg.rounds.length ∧
     (20 : ℚ) = wMach.round_start_time +
       ((wCfg.rounds.getD wMach.current_round default).lap_count : ℚ) *
         (wCfg.rounds.getD wMach.current_round default).lap_duration) ∧
    (get_current_lap wCfg 20 wMach).2.current_round = wMach.current_round + 1 := by
  have h1 : (0 : ℚ) < (wCfg.rounds.getD wMach.current_round default).lap_duration := by
    norm_num [wCfg, wRound, wMach]
  have h2 : wMach.paused = false := by norm_num [wMach]
  have h3 : wMach.current_round + 1 < wCfg.rounds.length := by
    norm_num [wCfg, wMach]
  have h4 : (20 : ℚ) = wMach.round_start_time +
      ((wCfg.rounds.getD wMach.current_round default).lap_count : ℚ) *
        (wCfg.rounds.getD wMach.current_round default).lap_duration := by
    norm_num [wCfg, wRound, wMach]
  exact ⟨⟨h1, h2, h3, h4⟩,
    (lap_rollover_advances_round wCfg wMach 20 h1 h2 h3 h4).2.1⟩

/-! Finish / restart semantics. -/

theorem pause_paused (now : ℚ) (s : MachineState) :
    (pause now s).paused = true := by
  cases h : s.paused <;> simp [pause, h]

theorem pause_finished (now : ℚ) (s : MachineState) :
    (pause now s).finished = s.finished := by
  cases h : s.paused <;> simp [pause, h]

theorem pause_current_round (now : ℚ) (s : MachineState) :
    (pause now s).current_round = s.current_round := by
  cases h : s.paused <;> simp [pause, h]

theorem pause_of_paused (now : ℚ) (s : MachineState) (h : s.paused = true) :
    pause now s = s := by
  simp [pause, h]

theorem update_finished_eq (s : MachineState) (h : s.finished = true) :
    { s with finished := true } = s := by
  cases s
  simp_all

/-- A finished-and-paused state whose frozen elapsed time has crossed the
final lap boundary is a fixpoint of `get_current_lap`: every subsequent
query reports the final lap and changes nothing. -/
theorem finished_state_fixpoint (cfg : RoundsConfig) (now' : ℚ)
    (f : MachineState)
    (hlast : f.current_round + 1 = cfg.rounds.length)
    (hrw : cfg.restart_when_finished = false)
    (hp : f.paused = true) (hf : f.finished = true)
    (hfl : ((cfg.rounds.getD f.current_round default).lap_count : Int)
        ≤ ⌊(f.time_when_paused - f.round_start_time) /
            (cfg.rounds.getD f.current_round default).lap_duration⌋) :
    get_current_lap cfg now' f
      = (((cfg.rounds.getD f.current_round default).lap_count : Int) - 1, f) := by
  have ht : time f now' = f.time_when_paused := by simp [time, hp]
  rw [get_current_lap_finish cfg now' f hlast hrw (by rw [ht]; exact hfl)]
  rw [update_finished_eq f hf, pause_of_paused now' f hp]

/-- C3: crossing the final lap boundary of the last round.  With
`restart_when_finished` unset, the query reports the frozen final lap
index `lap_count - 1`, marks the machine finished, pauses the clock, and
every subsequent query returns the same lap and the same state.  With the
flag set, the query reports lap 0 of round 0 of a machine restarted with a
freshly regenerated schedule and `finished = false`. -/
theorem finish_restart_semantics (cfg : RoundsConfig) (now : ℚ)
    (s : MachineState)
    (hlast : s.current_round + 1 = cfg.rounds.length)
    (hD : 0 < (cfg.rounds.getD s.current_round default).lap_duration)
    (hel : ((cfg.rounds.getD s.current_round default).lap_count : ℚ) *
        (cfg.rounds.getD s.current_round default).lap_duration
        ≤ time s now - s.round_start_time) :
    (cfg.restart_when_finished = false →
      (get_current_lap cfg now s).1
          = ((cfg.rounds.getD s.current_round default).lap_count : Int) - 1 ∧
      (get_current_lap cfg now s).2.finished = true ∧
      (get_current_lap cfg now s).2.paused = true ∧
      ∀ now', get_current_lap cfg now' (get_current_lap cfg now s).2
          = (((cfg.rounds.getD s.current_round default).lap_count : Int) - 1,
             (get_current_lap cfg now s).2)) ∧
    (cfg.restart_when_finished = true →
      get_current_lap cfg now s = (0, restart cfg now s) ∧
      (restart cfg now s).current_round = 0 ∧
      (restart cfg now s).finished = false ∧
      (restart cfg now s).answers = (genAnswers cfg.rounds s.rng).1 ∧
      (restart cfg now s).play_delays
        = (genDelays cfg.delay_before_playing (total_overhead cfg) cfg.rounds
            (genAnswers cfg.rounds s.rng).2).1) := by
  have hfl : ((cfg.rounds.getD s.current_round default).lap_count : Int)
      ≤ ⌊(time s now - s.round_start_time) /
          (cfg.rounds.getD s.current_round default).lap_duration⌋ := by
    rw [Int.le_floor]
    rw [le_div_iff₀ hD]
    push_cast
    exact hel
  constructor
  · intro hrw
    rw [get_current_lap_finish cfg now s hlast hrw hfl]
    have hfin : (pause now { s with finished := true }).finished = true := by
      rw [pause_finished]
    have hpau : (pause now { s with finished := true }).paused = true :=
      pause_paused _ _
    have hcr : (pause now { s with finished := true }).current_round
        = s.current_round := by
      rw [pause_current_round]
    have helf : (pause now { s with finished := true }).time_when_paused -
        (pause now { s with finished := true }).round_start_time
        = time s now - s.round_start_time := by
      cases h : s.paused <;> simp [pause, time, h]
    refine ⟨rfl, hfin, hpau, ?_⟩
    intro now'
    have hfix := finished_state_fixpoint cfg now'
      (pause now { s with finished := true })
      (by rw [hcr]; exact hlast) hrw hpau hfin
      (by rw [hcr, helf]; exact hfl)
    rw [hcr] at hfix
    exact hfix
  · intro hrw
    exact ⟨get_current_lap_restarts cfg now s hlast hrw hfl,
      restart_current_round cfg now s, restart_finished cfg now s,
      restart_answers cfg now s, restart_play_delays cfg now s⟩

/-- `wMach` moved to the last round of `wCfg` (round index 1 of 2). -/
def wMachLast : MachineState := { wMach with current_round := 1 }

/-- `wCfg` with `restart_when_finished` set. -/
def wCfgR : RoundsConfig := { wCfg with restart_when_finished := true }

theorem finish_restart_semantics_witness :
    (wMachLast.current_round + 1 = wCfg.rounds.length ∧
     (0 : ℚ) < (wCfg.rounds.getD wMachLast.current_round default).lap_duration ∧
     ((wCfg.rounds.getD wMachLast.current_round default).lap_count : ℚ) *
         (wCfg.rounds.getD wMachLast.current_round default).lap_duration
       ≤ time wMachLast 20 - wMachLast.round_start_time ∧
     (get_current_lap wCfg 20 wMachLast).2.finished = true ∧
     get_current_lap wCfg 33 (get_current_lap wCfg 20 wMachLast).2
       = (((wCfg.rounds.getD wMachLast.current_round default).lap_count : Int) - 1,
          (get_current_lap wCfg 20 wMachLast).2)) ∧
    (wMachLast.current_round + 1 = wCfgR.rounds.length ∧
     get_current_lap wCfgR 20 wMachLast = (0, restart wCfgR 20 wMachLast) ∧
     (restart wCfgR 20 wMachLast).finished = false) := by
  have h1 : wMachLast.current_round + 1 = wCfg.rounds.length := by
    norm_num [wCfg, wMach, wMachLast]
  have h2 : (0 : ℚ) < (wCfg.rounds.getD wMachLast.current_round default).lap_duration := by
    norm_num [wCfg, wRound, wMach, wMachLast]
  have h3 : ((wCfg.rounds.getD wMachLast.current_round default).lap_count : ℚ) *
      (wCfg.rounds.getD wMachLast.current_round default).lap_duration
      ≤ time wMachLast 20 - wMachLast.round_start_time := by
    norm_num [wCfg, wRound, wMach, wMachLast, time]
  have h1R : wMachLast.current_round + 1 = wCfgR.rounds.length := by
    norm_num [wCfgR, wCfg, wMach, wMachLast]
  have h2R : (0 : ℚ) < (wCfgR.rounds.getD wMachLast.current_round default).lap_duration := by
    norm_num [wCfgR, wCfg, wRound, wMach, wMachLast]
  have h3R : ((wCfgR.rounds.getD wMachLast.current_round default).lap_count : ℚ) *
      (wCfgR.rounds.getD wMachLast.current_round default).lap_duration
      ≤ time wMachLast 20 - wMachLast.round_start_time := by
    norm_num [wCfgR, wCfg, wRound, wMach, wMachLast, time]
  have hA := (finish_restart_semantics wCfg 20 wMachLast h1 h2 h3).1 rfl
  have hB := (finish_restart_semantics wCfgR 20 wMachLast h1R h2R h3R).2 rfl
  exact ⟨⟨h1, h2, h3, hA.2.1, hA.2.2.2 33⟩, ⟨h1R, hB.1, hB.2.2.1⟩⟩

/-! Read-only queries. -/

/-- C5 counterexample: on the running machine `wState` (as constructed at
start-up) queried at instant 20, `time_before_playing()` does not leave
the state unchanged — its inner `get_current_lap()` call advances the
round.  This refutes the claim that all five derived queries are
read-only in every reachable state. -/
theorem queries_readonly_counterexample :
    (time_before_playing wCfg 20 wState).2 ≠ wState := by
  intro hEq
  have h := congrArg MachineState.current_round hEq
  norm_num [time_before_playing, get_current_play_delay, get_current_lap,
    wState, init_machine, restart, genAnswers, randChoices, randChoice,
    randFloat, randStep, randSeed, genDelays, genDelaysRound, total_overhead,
    play, pause, time, qmod, pyIdx, wCfg, wRound, Guess.possible_values,
    Guess.allValues] at h

/-- C5 (amended): `time_before_next_lap()`, `is_paused()` and
`is_finished()` leave every state field unchanged in every state;
`time_before_playing()` and `current_correct_guess()` leave the state
unchanged provided the derived lap index is still below the current
round's lap count (i.e. no lap-boundary transition is pending) — when a
boundary is pending they mutate the machine through `get_current_lap`. -/
theorem queries_readonly_amended (cfg : RoundsConfig) (now : ℚ)
    (s : MachineState) :
    (time_before_next_lap cfg now s).2 = s ∧
    (is_paused s).2 = s ∧
    (is_finished s).2 = s ∧
    (⌊(time s now - s.round_start_time) /
        (cfg.rounds.getD s.current_round default).lap_duration⌋
        < ((cfg.rounds.getD s.current_round default).lap_count : Int) →
      (time_before_playing cfg now s).2 = s ∧
      (get_current_correct_guess cfg now s).2 = s) := by
  refine ⟨?_, rfl, rfl, ?_⟩
  · simp only [time_before_next_lap]
    split <;> rfl
  · intro h
    have hw := get_current_lap_within cfg now s h
    constructor
    · simp only [time_before_playing, get_current_play_delay, hw]
      split <;> rfl
    · simp only [get_current_correct_guess, hw]

theorem queries_readonly_amended_witness :
    (⌊(time wMach 5 - wMach.round_start_time) /
        (wCfg.rounds.getD wMach.current_round default).lap_duration⌋
        < ((wCfg.rounds.getD wMach.current_round default).lap_count : Int)) ∧
    (time_before_playing wCfg 5 wMach).2 = wMach := by
  have h : ⌊(time wMach 5 - wMach.round_start_time) /
      (wCfg.rounds.getD wMach.current_round default).lap_duration⌋
      < ((wCfg.rounds.getD wMach.current_round default).lap_count : Int) := by
    norm_num [time, wMach, wCfg, wRound]
  exact ⟨h, ((queries_readonly_amended wCfg 5 wMach).2.2.2 h).1⟩

/-! Last-element and sorting lemmas for the submission queries. -/

/-- Last element of a list with a default, the value of Python's `l[-1]`
on a non-empty list. -/
def lastD {α : Type} (d : α) : List α → α
  | [] => d
  | [a] => a
  | _ :: b :: rest => lastD d (b :: rest)

theorem getD_length_sub_one_eq_lastD {α : Type} (l : List α) (d : α) :
    l.getD (l.length - 1) d = lastD d l := by
  induction l with
  | nil => rfl
  | cons a rest ih =>
    cases rest with
    | nil => rfl
    | cons b t =>
      have hlen : (a :: b :: t).length - 1 = ((b :: t).length - 1) + 1 := by
        simp
      rw [hlen, List.getD_cons_succ, ih]
      rfl

theorem pyIdx_neg_one {α : Type} (l : List α) (d : α) :
    pyIdx l (-1) d = lastD d l := by
  have h : pyIdx l (-1) d = l.getD (l.length - 1) d := by
    norm_num [pyIdx]
  rw [h, getD_length_sub_one_eq_lastD]

theorem lastD_mem {α : Type} (d : α) (l : List α) (h : l ≠ []) :
    lastD d l ∈ l := by
  induction l with
  | nil => exact absurd rfl h
  | cons a rest ih =>
    cases rest with
    | nil => simp [lastD]
    | cons b t => exact List.mem_cons_of_mem a (ih (by simp))

theorem lastD_map {α β : Type} (f : α → β) (d : β) (d' : α) (l : List α)
    (h : l ≠ []) : lastD d (l.map f) = f (lastD d' l) := by
  induction l with
  | nil => exact absurd rfl h
  | cons a rest ih =>
    cases rest with
    | nil => rfl
    | cons b t => exact ih (by simp)

theorem lastD_ts_min (d : Submission) (l : List Submission)
    (h : l.Pairwise (fun a b => b.timestamp ≤ a.timestamp)) :
    ∀ x ∈ l, (lastD d l).timestamp ≤ x.timestamp := by
  induction l with
  | nil => simp
  | cons a rest ih =>
    cases rest with
    | nil =>
      intro x hx
      rw [List.mem_singleton] at hx
      subst hx
      exact le_refl _
    | cons b t =>
      intro x hx
      have hlm : lastD d (b :: t) ∈ b :: t := lastD_mem d _ (by simp)
      rcases List.mem_cons.mp hx with rfl | hx'
      · exact (List.pairwise_cons.mp h).1 _ hlm
      · exact ih (List.pairwise_cons.mp h).2 x hx'

theorem mem_insertByTsDesc {y s : Submission} {l : List Submission} :
    y ∈ insertByTsDesc s l ↔ y = s ∨ y ∈ l := by
  induction l with
  | nil => simp [insertByTsDesc]
  | cons t rest ih =>
    simp only [insertByTsDesc]
    split
    · simp [List.mem_cons]
    · simp only [List.mem_cons, ih]
      tauto

theorem pairwise_insertByTsDesc (s : Submission) (l : List Submission)
    (h : l.Pairwise (fun a b => b.timestamp ≤ a.timestamp)) :
    (insertByTsDesc s l).Pairwise (fun a b => b.timestamp ≤ a.timestamp) := by
  induction l with
  | nil => simp [insertByTsDesc]
  | cons t rest ih =>
    rcases List.pairwise_cons.mp h with ⟨hhead, htail⟩
    simp only [insertByTsDesc]
    split
    · rename_i hle
      refine List.pairwise_cons.mpr ⟨?_, h⟩
      intro y hy
      rcases List.mem_cons.mp hy with rfl | hy'
      · exact hle
      · exact le_trans (hhead y hy') hle
    · rename_i hgt
      refine List.pairwise_cons.mpr ⟨?_, ih htail⟩
      intro y hy
      rcases mem_insertByTsDesc.mp hy with rfl | hy'
      · exact le_of_lt (lt_of_not_le hgt)
      · exact hhead y hy'

theorem pairwise_sortByTsDesc (l : List Submission) :
    (sortByTsDesc l).Pairwise (fun a b => b.timestamp ≤ a.timestamp) := by
  induction l with
  | nil => simp [sortByTsDesc]
  | cons s rest ih => exact pairwise_insertByTsDesc s _ ih

theorem mem_sortByTsDesc {y : Submission} {l : List Submission} :
    y ∈ sortByTsDesc l ↔ y ∈ l := by
  induction l with
  | nil => simp [sortByTsDesc]
  | cons s rest ih => simp [sortByTsDesc, mem_insertByTsDesc, ih]

/-- In a non-increasing-timestamp list, the last element is the unique
strict minimum when one exists. -/
theorem lastD_sorted_unique_min (L : List Submission) (x : Submission)
    (hs : L.Pairwise (fun a b => b.timestamp ≤ a.timestamp))
    (hxL : x ∈ L)
    (hmin : ∀ y ∈ L, y ≠ x → x.timestamp < y.timestamp) :
    lastD x L = x := by
  have hne : L ≠ [] := by
    intro h0
    rw [h0] at hxL
    simp at hxL
  have hlm : lastD x L ∈ L := lastD_mem x L hne
  by_contra hne'
  have h1 := hmin _ hlm hne'
  have h2 := lastD_ts_min x L hs x hxL
  exact absurd h2 (not_le.mpr h1)

/-- C2: the effective guess is the earliest submission of the slot.  When
the `(key, round, lap)` slot holds a submission `x` strictly earlier than
every other submission of that slot, the value `get_submissions(...)[-1]`
used by the scoring loop equals `x`'s guess, and (for a non-presence
round without disqualification) the `Answer` produced for that lap
carries exactly that guess. -/
theorem first_submission_wins (db : List Submission) (key : String)
    (round lap : Nat) (ca : Guess) (cl : Int) (x : Submission)
    (hx : x ∈ db) (hslot : slotPred key round lap x = true)
    (hmin : ∀ y ∈ db, slotPred key round lap y = true → y ≠ x →
      x.timestamp < y.timestamp)
    (hnd : is_disqualified db key round lap = false) :
    pyIdx (get_submissions db key round lap) (-1) Guess.nothing = x.guess ∧
    (scoreLap db key round false ca lap cl).1.guess = x.guess := by
  have hxf : x ∈ db.filter (slotPred key round lap) :=
    List.mem_filter.mpr ⟨hx, hslot⟩
  have hxs : x ∈ sortByTsDesc (db.filter (slotPred key round lap)) :=
    mem_sortByTsDesc.mpr hxf
  have hne : sortByTsDesc (db.filter (slotPred key round lap)) ≠ [] := by
    intro h0
    rw [h0] at hxs
    simp at hxs
  have hlast : lastD x (sortByTsDesc (db.filter (slotPred key round lap))) = x := by
    refine lastD_sorted_unique_min _ x (pairwise_sortByTsDesc _) hxs ?_
    intro y hy hyx
    have hyf := mem_sortByTsDesc.mp hy
    exact hmin y (List.mem_filter.mp hyf).1 (List.mem_filter.mp hyf).2 hyx
  have hmap : get_submissions db key round lap
      = (sortByTsDesc (db.filter (slotPred key round lap))).map
          (fun s => s.guess) := by
    simp only [get_submissions]
    rw [if_neg]
    simp only [List.isEmpty_iff, List.map_eq_nil_iff]
    exact hne
  have heff : pyIdx (get_submissions db key round lap) (-1) Guess.nothing
      = x.guess := by
    rw [hmap, pyIdx_neg_one, lastD_map (fun s => s.guess) Guess.nothing x _ hne,
      hlast]
  refine ⟨heff, ?_⟩
  simp [scoreLap, hnd, heff]

/-- Submissions of the witness slot: three rows for group key `a`, round
0, lap 0, timestamps 3, 1, 2 with pairwise different guesses. -/
def wSub1 : Submission :=
  { id := 1, timestamp := 3, seed := 7, round := 0, lap := 0, key := "a",
    guess := .fire, disqualified := false }

def wSub2 : Submission :=
  { id := 2, timestamp := 1, seed := 7, round := 0, lap := 0, key := "a",
    guess := .birds, disqualified := false }

def wSub3 : Submission :=
  { id := 3, timestamp := 2, seed := 7, round := 0, lap := 0, key := "a",
    guess := .chainsaw, disqualified := false }

def wDb : List Submission := [wSub1, wSub2, wSub3]

theorem first_submission_wins_witness :
    (wSub2 ∈ wDb ∧ slotPred "a" 0 0 wSub2 = true ∧
     (∀ y ∈ wDb, slotPred "a" 0 0 y = true → y ≠ wSub2 →
        wSub2.timestamp < y.timestamp) ∧
     is_disqualified wDb "a" 0 0 = false) ∧
    pyIdx (get_submissions wDb "a" 0 0) (-1) Guess.nothing = wSub2.guess := by
  have hx : wSub2 ∈ wDb := by decide
  have hslot : slotPred "a" 0 0 wSub2 = true := by decide
  have hmin : ∀ y ∈ wDb, slotPred "a" 0 0 y = true → y ≠ wSub2 →
      wSub2.timestamp < y.timestamp := by decide
  have hnd : is_disqualified wDb "a" 0 0 = false := by decide
  exact ⟨⟨hx, hslot, hmin, hnd⟩,
    (first_submission_wins wDb "a" 0 0 Guess.birds 0 wSub2 hx hslot hmin hnd).1⟩

/-! Decomposition of the per-round scoring loop. -/

theorem scoreLaps_snd_eq_sum (db : List Submission) (key : String)
    (round : Nat) (p : Bool) (cl : Int) (start : Nat) (cas : List Guess) :
    (scoreLaps db key round p cl start cas).2
      = ((enumFrom start cas).map
          (fun q => (scoreLap db key round p q.2 q.1 cl).2)).sum := by
  induction cas generalizing start with
  | nil => simp [scoreLaps, enumFrom]
  | cons ca rest ih => simp [scoreLaps, enumFrom, ih]

theorem scoreLaps_fst_getD (db : List Submission) (key : String) (round : Nat)
    (p : Bool) (cl : Int) (start : Nat) (cas : List Guess) (j : Nat)
    (dA : Answer) (dG : Guess) (h : j < cas.length) :
    (scoreLaps db key round p cl start cas).1.getD j dA
      = (scoreLap db key round p (cas.getD j dG) (start + j) cl).1 := by
  induction cas generalizing start j with
  | nil => simp at h
  | cons ca rest ih =>
    cases j with
    | zero => simp [scoreLaps]
    | succ j =>
      simp only [scoreLaps, List.getD_cons_succ]
      rw [ih (start + 1) j (by simpa using h)]
      have harith : start + 1 + j = start + (j + 1) := by omega
      rw [harith]

theorem scoreLap_snd_congr_cl (db : List Submission) (key : String)
    (round : Nat) (p : Bool) (ca : Guess) (lap : Nat) (cl cl' : Int) :
    (scoreLap db key round p ca lap cl).2
      = (scoreLap db key round p ca lap cl').2 := by
  simp only [scoreLap]
  split_ifs <;> rfl

theorem scoreLap_fst_hide (db : List Submission) (key : String) (round : Nat)
    (p : Bool) (ca : Guess) (lap : Nat) (cl : Int) :
    (scoreLap db key round p ca lap cl).1.hide = decide ((lap : Int) > cl) := by
  simp only [scoreLap]
  split_ifs <;> rfl

theorem scoreLaps_snd_congr_cl (db : List Submission) (key : String)
    (round : Nat) (p : Bool) (cl cl' : Int) (start : Nat) (cas : List Guess) :
    (scoreLaps db key round p cl start cas).2
      = (scoreLaps db key round p cl' start cas).2 := by
  induction cas generalizing start with
  | nil => rfl
  | cons ca rest ih =>
    simp only [scoreLaps]
    rw [scoreLap_snd_congr_cl db key round p ca start cl cl', ih (start + 1)]

/-- C9: disqualification dominance.  If some submission of the slot
carries the disqualified flag, the leaderboard `Answer` for that lap is
`disqualified`/incorrect (hidden exactly when the lap is in the future),
its score contribution is exactly `-0.5` whatever the slot's submissions
contain, and the row's cumulative score is the sum of the per-lap
contributions, so that lap contributes exactly `-0.5` to it. -/
theorem disqualification_dominance (db : List Submission) (key : String)
    (round : Nat) (presence : Bool) (cas : List Guess) (cl : Int) (lap : Nat)
    (dA : Answer) (dG : Guess)
    (hd : is_disqualified db key round lap = true) (hlap : lap < cas.length) :
    (scoreRound db key round presence cas cl).1.getD lap dA
        = { guess := Guess.disqualified, correct := false,
            hide := decide ((lap : Int) > cl) } ∧
    (scoreLap db key round presence (cas.getD lap dG) lap cl).2 = -(1 / 2) ∧
    (scoreRound db key round presence cas cl).2
        = ((enumFrom 0 cas).map
            (fun q => (scoreLap db key round presence q.2 q.1 cl).2)).sum := by
  refine ⟨?_, ?_, scoreLaps_snd_eq_sum db key round presence cl 0 cas⟩
  · rw [scoreRound,
      scoreLaps_fst_getD db key round presence cl 0 cas lap dA dG hlap]
    simp [scoreLap, hd]
  · simp [scoreLap, hd]

/-- Default `Answer` used as the out-of-range placeholder in witnesses. -/
def dAnswer : Answer := { guess := Guess.nothing, correct := false, hide := false }

/-- Disqualified submission for the witness slot. -/
def wSubD : Submission :=
  { id := 4, timestamp := 5, seed := 7, round := 0, lap := 0, key := "a",
    guess := .helicopter, disqualified := true }

def wDbD : List Submission := [wSub1, wSubD]

theorem disqualification_dominance_witness :
    (is_disqualified wDbD "a" 0 0 = true ∧
     0 < ([Guess.birds, Guess.fire] : List Guess).length) ∧
    (scoreRound wDbD "a" 0 false [Guess.birds, Guess.fire] 0).1.getD 0 dAnswer
      = { guess := Guess.disqualified, correct := false,
          hide := decide (((0 : Nat) : Int) > (0 : Int)) } := by
  have hd : is_disqualified wDbD "a" 0 0 = true := by decide
  have hlap : 0 < ([Guess.birds, Guess.fire] : List Guess).length := by decide
  exact ⟨⟨hd, hlap⟩,
    (disqualification_dominance wDbD "a" 0 false [Guess.birds, Guess.fire] 0 0
      dAnswer Guess.birds hd hlap).1⟩

/-- C10: the cumulative score counts every lap of the current round,
including laps strictly beyond the current one.  The row's score is
invariant under changing the current-lap snapshot (only the `hide` flag of
the rendered answers depends on it, and it is set exactly on laps
strictly greater than the current lap); the per-lap contribution is `+1`
for a lap — future or not — whose effective (earliest) guess matches the
schedule, `-0.5` for a disqualified one; and the score is the sum of
those contributions over all lap indices. -/
theorem future_laps_scored (db : List Submission) (key : String) (round : Nat)
    (presence : Bool) (cas : List Guess) (cl cl' : Int) (j : Nat) (ca : Guess)
    (dA : Answer) :
    (scoreRound db key round presence cas cl).2
        = (scoreRound db key round presence cas cl').2 ∧
    (j < cas.length →
      ((scoreRound db key round presence cas cl).1.getD j dA).hide
        = decide ((j : Int) > cl)) ∧
    (is_disqualified db key round j = false →
      (scoreLap db key round false ca j cl).2
        = if pyIdx (get_submissions db key round j) (-1) Guess.nothing = ca
          then 1 else 0) ∧
    (is_disqualified db key round j = true →
      (scoreLap db key round presence ca j cl).2 = -(1 / 2)) ∧
    (scoreRound db key round presence cas cl).2
        = ((enumFrom 0 cas).map
            (fun q => (scoreLap db key round presence q.2 q.1 cl).2)).sum := by
  refine ⟨scoreLaps_snd_congr_cl db key round presence cl cl' 0 cas, ?_, ?_, ?_,
    scoreLaps_snd_eq_sum db key round presence cl 0 cas⟩
  · intro h
    rw [scoreRound,
      scoreLaps_fst_getD db key round presence cl 0 cas j dA Guess.nothing h,
      scoreLap_fst_hide]
    norm_num
  · intro hnd
    simp [scoreLap, hnd, beq_iff_eq]
  · intro hd
    simp [scoreLap, hd]

theorem future_laps_scored_witness :
    (1 < ([Guess.birds, Guess.fire] : List Guess).length) ∧
    (scoreRound wDb "a" 0 false [Guess.birds, Guess.fire] 0).2
      = (scoreRound wDb "a" 0 false [Guess.birds, Guess.fire] 5).2 ∧
    ((scoreRound wDb "a" 0 false [Guess.birds, Guess.fire] 0).1.getD 1
        dAnswer).hide = decide (((1 : Nat) : Int) > (0 : Int)) := by
  have h : 1 < ([Guess.birds, Guess.fire] : List Guess).length := by decide
  have hthm := future_laps_scored wDb "a" 0 false [Guess.birds, Guess.fire]
    0 5 1 Guess.birds dAnswer
  exact ⟨h, hthm.1, hthm.2.1 h⟩

end Leaderboard
